import Mathlib

/-!
Verification development for the bulk-ledger update tool (`src/app.py`).

The Python source is shallowly embedded: worksheets become records of
cell-value and cell-style functions together with the tracked dimensions
(`max_row`, `max_column`) and the list of structured-table bounds; Python
cell values (None, float, str, float nan, datetime) become the inductive
type `Value`, with floats modelled as rationals and datetimes as natural
numbers (so `datetime.min` is `0`); fallible Python code (`float(...)`,
`int(...)`, the orchestrator) returns `Except`.  An exception raised by
`apply_drum_update_to_main` carries the worksheet as already mutated at
raise time, matching Python's in-place mutation.  Python `re.sub` with the
pattern used by `adjust_formula_row` is implemented as an explicit
leftmost, greedy, non-overlapping scanner over character lists; `\w` is
modelled as ASCII word characters plus all code points at or above 128
(which covers the Hangul text this program processes).  `str()` of a
rational and of a datetime use a fixed abstract rendering; no claim
depends on these renderings.
-/

namespace BulkUpdate

/-- Python `range(s, s+n)` as a list of naturals: `[s, s+1, ..., s+n-1]`. -/
def rowRange : Nat → Nat → List Nat
  | _, 0 => []
  | s, n + 1 => s :: rowRange (s + 1) n

/-- A cell value as stored by openpyxl / produced by pandas: Python `None`,
float `nan`, a string, a number (int and float collapsed to `ℚ`), or a
`datetime` (modelled as a natural-number timestamp, `datetime.min = 0`). -/
inductive Value where
  | none : Value
  | nan : Value
  | str : String → Value
  | num : ℚ → Value
  | dt : Nat → Value
  deriving DecidableEq, Repr

/-- A structured-table range, the decoded rectangular bound of `tbl.ref`
(`range_boundaries` of e.g. `"F3:U418"`). -/
structure Table where
  minCol : Nat
  minRow : Nat
  maxCol : Nat
  maxRow : Nat
  deriving DecidableEq, Repr

/-- An openpyxl worksheet: cell values and cell styles (styles abstracted to
numeric identifiers), the tracked dimensions, and the structured tables. -/
structure Worksheet where
  cells : Nat → Nat → Value
  styles : Nat → Nat → Nat
  maxRow : Nat
  maxCol : Nat
  tables : List Table

/-- Read a cell value (`ws.cell(row, column).value`). -/
def getValue (ws : Worksheet) (r c : Nat) : Value :=
  ws.cells r c

/-- Write a cell value (`ws.cell(row=r, column=c, value=v)`); creating the
cell extends the tracked dimensions, as in openpyxl. -/
def setValue (ws : Worksheet) (r c : Nat) (v : Value) : Worksheet :=
  { ws with
    cells := fun r' c' => if r' = r ∧ c' = c then v else ws.cells r' c'
    maxRow := max ws.maxRow r
    maxCol := max ws.maxCol c }

/-- Write a cell style (`dst_cell._style = ...`); creating the cell extends
the tracked dimensions, as in openpyxl. -/
def setStyle (ws : Worksheet) (r c sid : Nat) : Worksheet :=
  { ws with
    styles := fun r' c' => if r' = r ∧ c' = c then sid else ws.styles r' c'
    maxRow := max ws.maxRow r
    maxCol := max ws.maxCol c }

/-- Python truthiness of a cell value (`bool(v)`); note `nan` is truthy. -/
def pyTruthy : Value → Bool
  | Value.none => false
  | Value.nan => true
  | Value.str s => s ≠ ""
  | Value.num q => q ≠ 0
  | Value.dt _ => true

/-- Python `a or b`. -/
def pyOr (a b : Value) : Value :=
  if pyTruthy a then a else b

/-- Python `str(v)`.  The renderings of numbers and datetimes are fixed
abstractly; no claim depends on them. -/
def pyStr : Value → String
  | Value.none => "None"
  | Value.nan => "nan"
  | Value.str s => s
  | Value.num q => toString q
  | Value.dt t => "datetime:" ++ toString t

/-- ASCII whitespace as Python `strip()` removes it (space, tab, newline,
carriage return, vertical tab, form feed). -/
def isSpaceChar (c : Char) : Bool :=
  c.toNat = 32 || c.toNat = 9 || c.toNat = 10 || c.toNat = 13 || c.toNat = 11 || c.toNat = 12

/-- Remove leading and trailing whitespace from a character list. -/
def stripChars (l : List Char) : List Char :=
  ((l.dropWhile isSpaceChar).reverse.dropWhile isSpaceChar).reverse

/-- Python `s.strip()`. -/
def pyStrip (s : String) : String :=
  String.mk (stripChars s.toList)

/-- Python `s.upper()` (ASCII case mapping; Hangul has no case). -/
def pyUpper (s : String) : String :=
  String.mk (s.toList.map Char.toUpper)

/-- ASCII decimal digit test, via code points. -/
def isDigitChar (c : Char) : Bool :=
  48 ≤ c.toNat && c.toNat ≤ 57

/-- Value of a list of decimal digit characters. -/
def digitsVal (l : List Char) : Nat :=
  l.foldl (fun a c => a * 10 + (c.toNat - 48)) 0

/-- The result of Python `float(...)`: a finite value or `nan`. -/
inductive FloatVal where
  | num : ℚ → FloatVal
  | nan : FloatVal
  deriving DecidableEq, Repr

/-- Parse a string as Python `float(...)` does, for the sign/digits/point
forms (exponents and the words inf/nan are outside the modelled scope):
optional surrounding whitespace, optional sign, digits with an optional
decimal point, at least one digit. -/
def parseFloat (s : String) : Option ℚ :=
  let cs := stripChars s.toList
  let sgn : ℚ × List Char :=
    match cs with
    | '+' :: r => (1, r)
    | '-' :: r => (-1, r)
    | r => (1, r)
  let ip := sgn.2.takeWhile isDigitChar
  let r1 := sgn.2.dropWhile isDigitChar
  match r1 with
  | [] => if ip = [] then Option.none else some (sgn.1 * digitsVal ip)
  | '.' :: r2 =>
    let fp := r2.takeWhile isDigitChar
    let r3 := r2.dropWhile isDigitChar
    if r3 = [] ∧ (ip ≠ [] ∨ fp ≠ []) then
      some (sgn.1 * ((digitsVal ip : ℚ) + (digitsVal fp : ℚ) / (10 : ℚ) ^ fp.length))
    else Option.none
  | _ => Option.none

/-- Python `float(v)`: numbers pass through, `nan` stays `nan`, strings are
parsed (raising `ValueError` when unparseable), other types raise
`TypeError`. -/
def pyFloat : Value → Except String FloatVal
  | Value.num q => Except.ok (FloatVal.num q)
  | Value.nan => Except.ok FloatVal.nan
  | Value.str s =>
    match parseFloat s with
    | some q => Except.ok (FloatVal.num q)
    | Option.none => Except.error ("ValueError: could not convert string to float: " ++ s)
  | Value.none => Except.error "TypeError: float() argument must not be None"
  | Value.dt _ => Except.error "TypeError: float() argument must not be a datetime"

/-- The float written back into a cell. -/
def floatToValue : FloatVal → Value
  | FloatVal.num q => Value.num q
  | FloatVal.nan => Value.nan

/-- Python `fv == 0` on the result of `float(...)`; `nan == 0` is `False`. -/
def floatIsZero : FloatVal → Bool
  | FloatVal.num q => q = 0
  | FloatVal.nan => false

/-- Parse a string as Python `int(...)` does: optional surrounding
whitespace, optional sign, one or more decimal digits. -/
def parseIntStr (s : String) : Option Int :=
  let cs := stripChars s.toList
  let sgn : Int × List Char :=
    match cs with
    | '+' :: r => (1, r)
    | '-' :: r => (-1, r)
    | r => (1, r)
  if sgn.2 ≠ [] ∧ sgn.2.all isDigitChar then some (sgn.1 * digitsVal sgn.2) else Option.none

/-- Python `int(v)`: floats truncate toward zero, strings are parsed,
`nan`/`None`/datetimes raise. -/
def pyInt : Value → Except String Int
  | Value.num q => Except.ok (if 0 ≤ q then ⌊q⌋ else ⌈q⌉)
  | Value.str s =>
    match parseIntStr s with
    | some i => Except.ok i
    | Option.none => Except.error ("ValueError: invalid literal for int(): " ++ s)
  | Value.nan => Except.error "ValueError: cannot convert float NaN to integer"
  | Value.none => Except.error "TypeError: int() argument must not be None"
  | Value.dt _ => Except.error "TypeError: int() argument must not be a datetime"

/-- Uppercase ASCII letter test (`[A-Z]`), via code points. -/
def isUpperAZ (c : Char) : Bool :=
  65 ≤ c.toNat && c.toNat ≤ 90

/-- Python regex `\w` (word character), modelled as the ASCII word
characters plus every code point at or above 128 (Python's Unicode `\w`
includes the Hangul characters this program processes). -/
def isWordChar (c : Char) : Bool :=
  (48 ≤ c.toNat && c.toNat ≤ 57) || (65 ≤ c.toNat && c.toNat ≤ 90) ||
    (97 ≤ c.toNat && c.toNat ≤ 122) || c.toNat = 95 || 128 ≤ c.toNat

/-- The `\b` after the row digits (the preceding digit is a word character,
so the boundary holds exactly when the next character is absent or is not a
word character). -/
def boundaryOK : List Char → Bool
  | [] => true
  | c :: _ => !isWordChar c

/-- Does `p` occur as a prefix of `l`? -/
def startsWithList : List Char → List Char → Bool
  | [], _ => true
  | _ :: _, [] => false
  | a :: asx, b :: bs => a = b && startsWithList asx bs

/-- Decimal digit character for `n % 10`-style inputs. -/
def digitChar : Nat → Char
  | 0 => '0' | 1 => '1' | 2 => '2' | 3 => '3' | 4 => '4'
  | 5 => '5' | 6 => '6' | 7 => '7' | 8 => '8' | _ => '9'

/-- Decimal digits of a natural number (fuelled structural recursion so the
kernel can evaluate it). -/
def rowDigitsAux : Nat → Nat → List Char
  | 0, _ => []
  | fuel + 1, n =>
    if n < 10 then [digitChar n]
    else rowDigitsAux fuel (n / 10) ++ [digitChar (n % 10)]

/-- Decimal digits of a natural number, as Python renders an `int` into the
regex pattern (`f"...{old_row}..."`). -/
def rowDigits (n : Nat) : List Char :=
  rowDigitsAux (n + 1) n

/-- One attempt of the matcher at the start of `s` with exactly `k` column
letters: `k` uppercase letters, then the digits `old`, then `\b`. -/
def tryLen (old s : List Char) (k : Nat) : Option (List Char) :=
  let t := s.take k
  if t.length = k && t.all isUpperAZ && startsWithList old (s.drop k) &&
      boundaryOK ((s.drop k).drop old.length) then
    some t
  else Option.none

/-- The greedy `[A-Z]{1,3}` of the pattern: try three letters, then two,
then one (as backtracking does). -/
def tryLetters (old s : List Char) : Option (List Char) :=
  match tryLen old s 3 with
  | some t => some t
  | Option.none =>
    match tryLen old s 2 with
    | some t => some t
    | Option.none => tryLen old s 1

/-- Attempt the pattern `(\$?[A-Z]{1,3})old\b` at the start of `s`,
returning the capture group (`$`-prefix and letters) on success.  When the
first character is `$` the `\$?` must consume it (a failing retry without
the `$` would need `[A-Z]` to match `$`, which is impossible). -/
def matchAt (old : List Char) (s : List Char) : Option (List Char) :=
  match s with
  | [] => Option.none
  | c :: rest => if c = '$' then (tryLetters old rest).map (fun t => c :: t) else tryLetters old s

/-- The scanning loop of `re.sub`: find the leftmost match, emit the capture
group followed by the replacement digits, and continue after the match
(fuelled so the kernel can evaluate it). -/
def subAdjustFuel (old new : List Char) : Nat → List Char → List Char
  | 0, s => s
  | fuel + 1, s =>
    match s with
    | [] => []
    | c :: rest =>
      match matchAt old (c :: rest) with
      | some g1 => g1 ++ new ++ subAdjustFuel old new fuel ((c :: rest).drop (g1.length + old.length))
      | Option.none => c :: subAdjustFuel old new fuel rest

/-- `pattern.sub(repl, formula)` for the pattern `(\$?[A-Z]{1,3})old\b` and
replacement `group(1) + str(new_row)`. -/
def subAdjust (old new s : List Char) : List Char :=
  subAdjustFuel old new s.length s

/-- `adjust_formula_row(formula, old_row, new_row)` from `src/app.py`:
non-strings and strings not starting with `=` pass through unchanged;
otherwise every cell-address row number `old_row` is rewritten to
`new_row`. -/
def adjust_formula_row (v : Value) (old_row new_row : Nat) : Value :=
  match v with
  | Value.str s =>
    if s.toList.head? = some '=' then
      Value.str (String.mk (subAdjust (rowDigits old_row) (rowDigits new_row) s.toList))
    else Value.str s
  | other => other

/-- openpyxl `column_index_from_string`: base-26 value of the column
letters (`"A" = 1`, ..., `"X" = 24`, `"AA" = 27`, ...). -/
def column_index_from_string (s : String) : Nat :=
  s.toList.foldl (fun acc c => acc * 26 + (c.toNat - 64)) 0

/-- Quantity-column letters of the 20 drum slots (`qtyCols` of
`get_drum_col_letters`). -/
def qtyCols : Nat → String
  | 1 => "X" | 2 => "AA" | 3 => "AD" | 4 => "AG" | 5 => "AJ"
  | 6 => "AM" | 7 => "AP" | 8 => "AS" | 9 => "AV" | 10 => "AY"
  | 11 => "BB" | 12 => "BE" | 13 => "BH" | 14 => "BK" | 15 => "BN"
  | 16 => "BQ" | 17 => "BT" | 18 => "BW" | 19 => "BZ" | 20 => "CC"
  | _ => ""

/-- Location-column letters of the 20 drum slots (`locCols` of
`get_drum_col_letters`). -/
def locCols : Nat → String
  | 1 => "Y" | 2 => "AB" | 3 => "AE" | 4 => "AH" | 5 => "AK"
  | 6 => "AN" | 7 => "AQ" | 8 => "AT" | 9 => "AW" | 10 => "AZ"
  | 11 => "BC" | 12 => "BF" | 13 => "BI" | 14 => "BL" | 15 => "BO"
  | 16 => "BR" | 17 => "BU" | 18 => "BX" | 19 => "CA" | 20 => "CD"
  | _ => ""

/-- Stock-flag-column letters of the 20 drum slots (`stockCols` of
`get_drum_col_letters`). -/
def stockCols : Nat → String
  | 1 => "Z" | 2 => "AC" | 3 => "AF" | 4 => "AI" | 5 => "AL"
  | 6 => "AO" | 7 => "AR" | 8 => "AU" | 9 => "AX" | 10 => "BA"
  | 11 => "BD" | 12 => "BG" | 13 => "BJ" | 14 => "BM" | 15 => "BP"
  | 16 => "BS" | 17 => "BV" | 18 => "BY" | 19 => "CB" | 20 => "CE"
  | _ => ""

/-- The warning emitted for an out-of-range drum number. -/
def drumWarn (drum_no : Int) : String :=
  "[경고] 통번호 " ++ toString drum_no ++ " 는 1~20 범위를 벗어남. 스킵."

/-- `apply_drum_update_to_main(ws_main, row, drum_no, new_qty, new_loc)`:
out-of-range drum numbers warn and skip; otherwise the location cell gets
the new location verbatim, then quantity and stock-flag cells are written
according to the normalized location.  On a raise (unparseable quantity)
the error carries the worksheet as already mutated, as Python's in-place
mutation leaves it. -/
def apply_drum_update_to_main (ws : Worksheet) (row : Nat) (drum_no : Int)
    (new_qty new_loc : Value) : Except (String × Worksheet) (Worksheet × List String) :=
  if drum_no < 1 ∨ 20 < drum_no then
    Except.ok (ws, [drumWarn drum_no])
  else
    let d := drum_no.toNat
    let q_col := column_index_from_string (qtyCols d)
    let l_col := column_index_from_string (locCols d)
    let s_col := column_index_from_string (stockCols d)
    let ws1 := setValue ws row l_col new_loc
    let loc_upper := pyUpper (pyStrip (pyStr (pyOr new_loc (Value.str ""))))
    match pyFloat (pyOr new_qty (Value.num 0)) with
    | Except.error e => Except.error (e, ws1)
    | Except.ok fv =>
      if loc_upper = "소진" ∨ loc_upper = "폐기" then
        Except.ok (setValue (setValue ws1 row s_col (Value.num 0)) row q_col (Value.num 0), [])
      else if loc_upper = "외주" then
        Except.ok (setValue (setValue ws1 row s_col (Value.num 0)) row q_col (floatToValue fv), [])
      else
        Except.ok (setValue (setValue ws1 row q_col (floatToValue fv)) row s_col
          (Value.num (if floatIsZero fv then 0 else 1)), [])

/-- The comparison of one main-sheet row against the key, as
`find_main_row` performs it: `str(cell.value or "").strip()` of columns B
and D against `str(input).strip()`. -/
def rowMatches (ws : Worksheet) (r : Nat) (part lot : String) : Bool :=
  (pyStrip (pyStr (pyOr (ws.cells r 2) (Value.str ""))) = pyStrip part) &&
    (pyStrip (pyStr (pyOr (ws.cells r 4) (Value.str ""))) = pyStrip lot)

/-- First row of the list satisfying `p`, or the sentinel `0`. -/
def findFirst (p : Nat → Bool) : List Nat → Nat
  | [] => 0
  | r :: rs => if p r then r else findFirst p rs

/-- `find_main_row(ws_main, part_no, lot_no)`: scan rows 3 through
`max_row` for the first row whose item-code (B) and lot (D) columns match;
`0` when none does. -/
def find_main_row (ws : Worksheet) (part lot : String) : Nat :=
  findFirst (fun r => rowMatches ws r part lot) (rowRange 3 (ws.maxRow - 2))

/-- `get_template_row(ws_main)`: scan from `max_row` down to row 3 for the
first row with a non-empty lot column (D). -/
def get_template_row (ws : Worksheet) : Option Nat :=
  (rowRange 3 (ws.maxRow - 2)).reverse.find? (fun r =>
    pyStrip (pyStr (pyOr (ws.cells r 4) (Value.str ""))) ≠ "")

/-- `extend_tables_for_new_row(ws, template_row, new_row)`: every
structured table whose row span contains the template row and whose bound
ends before the new row has its max row rewritten to the new row. -/
def extend_tables_for_new_row (ws : Worksheet) (template_row new_row : Nat) : Worksheet :=
  { ws with
    tables := ws.tables.map (fun t =>
      if t.minRow ≤ template_row ∧ template_row ≤ t.maxRow then
        if t.maxRow < new_row then
          { minCol := t.minCol, minRow := t.minRow, maxCol := t.maxCol, maxRow := new_row }
        else t
      else t) }

/-- The header map of `append_log_row` as a lookup function: scan columns 1
through `max_column` of header row 1, keeping for each non-`None`,
stripped header name the last column bearing it (dict insertion
overwrites). -/
def headerLookup (ws : Worksheet) (name : String) : Option Nat :=
  (rowRange 1 ws.maxCol).foldl
    (fun acc c =>
      if ws.cells 1 c = Value.none then acc
      else if pyStrip (pyStr (ws.cells 1 c)) = name then some c else acc)
    Option.none

/-- One parsed change-log record (a row of `bulk_move_log.csv` after the
pandas timestamp parse: `time` is `none` for `NaT`). -/
structure ChangeRecord where
  time : Option Nat
  id : Value
  part : Value
  name : Value
  lot : Value
  drum : Value
  qtyBefore : Value
  qtyAfter : Value
  delta : Value
  locBefore : Value
  locAfter : Value

/-- The `시간` value as written into the LOG sheet: the parsed timestamp,
or `NaT` (modelled like `nan`) when the parse coerced it to null. -/
def ChangeRecord.timeValue (rec : ChangeRecord) : Value :=
  match rec.time with
  | some t => Value.dt t
  | Option.none => Value.nan

/-- The `value_map` of `append_log_row`: CSV field values keyed by the LOG
header names they are written under (the `품목코드` header is a synonym
receiving the `품번` value). -/
def valueMap (rec : ChangeRecord) : List (String × Value) :=
  [("시간", rec.timeValue), ("ID", rec.id), ("품목코드", rec.part), ("품번", rec.part),
   ("품명", rec.name), ("로트번호", rec.lot), ("통번호", rec.drum),
   ("변경 전 용량", rec.qtyBefore), ("변경 후 용량", rec.qtyAfter), ("변화량", rec.delta),
   ("변경 전 위치", rec.locBefore), ("변경 후 위치", rec.locAfter)]

/-- Write the recognized fields of the value map into the new row, in the
map's order, skipping header names absent from the header map. -/
def writeFields (hm : String → Option Nat) (r : Nat) : Worksheet → List (String × Value) → Worksheet
  | ws, [] => ws
  | ws, (h, v) :: rest =>
    writeFields hm r
      (match hm h with
       | some c => setValue ws r c v
       | Option.none => ws) rest

/-- Copy the cell styles of row `src` into row `dst` for columns 1 through
`maxCol` (the `_style` copy loop). -/
def copyRowStyles (ws : Worksheet) (src dst maxCol : Nat) : Worksheet :=
  (rowRange 1 maxCol).foldl (fun w c => setStyle w dst c (w.styles src c)) ws

/-- `append_log_row(ws_log, log_row)`: build the header map from row 1,
append at `last + 1`, copy the last row's styles, then write each
recognized field into its header's column. -/
def append_log_row (ws : Worksheet) (rec : ChangeRecord) : Worksheet :=
  let maxCol := ws.maxCol
  let last := max ws.maxRow 1
  let new_r := last + 1
  let ws1 := copyRowStyles ws last new_r maxCol
  writeFields (headerLookup ws) new_r ws1 (valueMap rec)

/-- One entry of the lot-metadata index built by
`build_meta_from_extended` (`제품라인`, `제조일자`, `전체통수`, `품명`). -/
structure MetaEntry where
  productLine : String
  mfgDate : Value
  totalDrums : Value
  name : String

/-- The lot-metadata index: `(item code, lot)` to its metadata entry.  The
CSV grouping itself is pandas plumbing outside the modelled core; the
index is taken as input. -/
def MetaMap : Type :=
  String × String → Option MetaEntry

/-- The metadata fields with the `meta.get(..., default)` defaults applied
for a missing key. -/
def metaFields (m : Option MetaEntry) : String × Value × Value × String :=
  match m with
  | some e => (e.productLine, e.mfgDate, e.totalDrums, e.name)
  | Option.none => ("", Value.none, Value.none, "")

/-- The fixed formula-bearing columns F,H,I,N,O,P,R,S,T,U,V as indices. -/
def formulaCols : List Nat :=
  [6, 8, 9, 14, 15, 16, 18, 19, 20, 21, 22]

/-- `create_new_main_row(ws_main, part_no, lot_no, prod_name, meta_map,
template_row)`: extend the tables, copy the base row's styles, fill the
identity columns B,C,D,E,G,W, and copy the template's formula columns with
the row number rewritten.  Returns the sheet and the new row index. -/
def create_new_main_row (ws : Worksheet) (part_no lot_no prod_name : String)
    (meta_map : MetaMap) (template_row : Option Nat) : Worksheet × Nat :=
  let key := (pyStrip part_no, pyStrip lot_no)
  let meta := metaFields (meta_map key)
  let new_row := ws.maxRow + 1
  let ws0 :=
    match template_row with
    | some t => extend_tables_for_new_row ws t new_row
    | Option.none => ws
  let base_row :=
    match template_row with
    | some t => t
    | Option.none => new_row - 1
  let ws1 := copyRowStyles ws0 base_row new_row ws0.maxCol
  let ws2 := setValue ws1 new_row 2 (Value.str (pyStrip part_no))
  let ws3 := setValue ws2 new_row 3 (Value.str (if prod_name ≠ "" then prod_name else meta.2.2.2))
  let ws4 := setValue ws3 new_row 4 (Value.str (pyStrip lot_no))
  let ws5 := setValue ws4 new_row 5 (Value.str meta.1)
  let ws6 := setValue ws5 new_row 7 meta.2.1
  let ws7 := setValue ws6 new_row 23 meta.2.2.1
  let ws8 :=
    match template_row with
    | some t =>
      formulaCols.foldl (fun w c =>
        let v := getValue w t c
        match v with
        | Value.str s =>
          if s.toList.head? = some '=' then setValue w new_row c (adjust_formula_row v t new_row)
          else setValue w new_row c v
        | other => setValue w new_row c other) ws7
    | Option.none => ws7
  (ws8, new_row)

/-- A workbook: its sheets by name, in order. -/
structure Workbook where
  sheets : List (String × Worksheet)

/-- Find a sheet by name (`wb["메인"]` / the `in wb.sheetnames` check). -/
def sheetLookup (wb : Workbook) (name : String) : Option Worksheet :=
  match wb.sheets.find? (fun p => p.1 = name) with
  | some p => some p.2
  | Option.none => Option.none

/-- Store back the mutated 메인 and LOG sheets (Python mutates the sheet
objects in place). -/
def storeSheets (wb : Workbook) (wsm wsl : Worksheet) : Workbook :=
  ⟨wb.sheets.map (fun p =>
    if p.1 = "메인" then (p.1, wsm) else if p.1 = "LOG" then (p.1, wsl) else p)⟩

/-- The timestamps found in column 1 of the LOG sheet, rows 2 through
`max_row` (only `datetime` cells count, as `isinstance(val, datetime)`). -/
def logTimes (ws : Worksheet) : List Nat :=
  (rowRange 2 (ws.maxRow - 1)).filterMap (fun r =>
    match ws.cells r 1 with
    | Value.dt t => some t
    | _ => Option.none)

/-- Python `max(list)` for a nonempty list of naturals, and the
`datetime.min` default (modelled as `0`) for the empty one. -/
def listMax : List Nat → Nat
  | [] => 0
  | t :: ts => ts.foldl Nat.max t

/-- The replay watermark: `max(log_times) if log_times else datetime.min`. -/
def lastTime (ws : Worksheet) : Nat :=
  listMax (logTimes ws)

/-- The filter `df_log["시간"] > last_time` on one record; a `NaT`
timestamp compares as not-greater. -/
def passFilter (wm : Nat) (rec : ChangeRecord) : Bool :=
  match rec.time with
  | some t => decide (wm < t)
  | Option.none => false

/-- Sort key of a surviving record (every survivor has a timestamp). -/
def timeKeyD (rec : ChangeRecord) : Nat :=
  rec.time.getD 0

/-- Ascending-timestamp order on change records. -/
def recLE (a b : ChangeRecord) : Prop :=
  timeKeyD a ≤ timeKeyD b

instance : DecidableRel recLE :=
  fun a b => Nat.decLe (timeKeyD a) (timeKeyD b)

instance : IsTotal ChangeRecord recLE :=
  ⟨fun a b => Nat.le_total (timeKeyD a) (timeKeyD b)⟩

instance : IsTrans ChangeRecord recLE :=
  ⟨fun _ _ _ h1 h2 => Nat.le_trans h1 h2⟩

/-- The surviving records in application order: keep timestamps strictly
after the watermark, sort ascending by timestamp. -/
def newLogsFor (wsl : Worksheet) (recs : List ChangeRecord) : List ChangeRecord :=
  List.insertionSort recLE (recs.filter (passFilter (lastTime wsl)))

/-- The replay loop of `process_bulk_log_streamlit`: for each surviving
record, locate or create the main row, apply the drum update, append the
LOG row; raises propagate. -/
def replayLoop (meta_map : MetaMap) :
    Worksheet → Worksheet → Option Nat → List ChangeRecord → Nat →
    Except String (Worksheet × Worksheet × Nat)
  | wsm, wsl, _, [], n => Except.ok (wsm, wsl, n)
  | wsm, wsl, tmpl, rec :: rest, n =>
    let part := pyStrip (pyStr rec.part)
    let lot := pyStrip (pyStr rec.lot)
    let prod_name := pyStrip (pyStr (pyOr rec.name (Value.str "")))
    match pyInt rec.drum with
    | Except.error e => Except.error e
    | Except.ok drum_no =>
      let new_qty := rec.qtyAfter
      let new_loc := Value.str (pyStr rec.locAfter)
      let found := find_main_row wsm part lot
      let next :=
        if found = 0 then
          let res := create_new_main_row wsm part lot prod_name meta_map tmpl
          (res.1, res.2, some res.2)
        else (wsm, found, tmpl)
      match apply_drum_update_to_main next.1 next.2.1 drum_no new_qty new_loc with
      | Except.error e => Except.error e.1
      | Except.ok (wsm2, _) =>
        replayLoop meta_map wsm2 (append_log_row wsl rec) next.2.2 rest (n + 1)

/-- `process_bulk_log_streamlit`: require the 메인 and LOG sheets, compute
the watermark, filter and sort the change records, and replay the
survivors; an empty survivor set returns the workbook unchanged with
applied-count 0.  CSV decoding and the workbook byte (de)serialization are
I/O plumbing outside the modelled core, so the orchestrator consumes
parsed records and returns the workbook value. -/
def process_bulk_log_streamlit (wb : Workbook) (recs : List ChangeRecord)
    (meta_map : MetaMap) : Except String (Workbook × Nat) :=
  match sheetLookup wb "메인", sheetLookup wb "LOG" with
  | some wsm, some wsl =>
    let template_row := get_template_row wsm
    let nl := newLogsFor wsl recs
    if nl.isEmpty then Except.ok (wb, 0)
    else
      match replayLoop meta_map wsm wsl template_row nl 0 with
      | Except.ok (wsm2, wsl2, n) => Except.ok (storeSheets wb wsm2 wsl2, n)
      | Except.error e => Except.error e
  | _, _ => Except.error "엑셀 파일에 메인 또는 LOG 시트가 없습니다."

/-- Did the drum update finish without raising and without a warning? -/
def okNoWarn : Except (String × Worksheet) (Worksheet × List String) → Bool
  | Except.ok (_, []) => true
  | _ => false

/-- Did the drum update finish without raising? -/
def exceptIsOk : Except (String × Worksheet) (Worksheet × List String) → Bool
  | Except.ok _ => true
  | Except.error _ => false

/-- The worksheet after a drum update: the updated sheet on success, the
sheet as mutated up to the raise on failure. -/
def okSheet : Except (String × Worksheet) (Worksheet × List String) → Worksheet
  | Except.ok p => p.1
  | Except.error e => e.2

/-- An empty worksheet (openpyxl reports dimensions 1×1 for it). -/
def blankWS : Worksheet :=
  ⟨fun _ _ => Value.none, fun _ _ => 0, 1, 1, []⟩

/-- Concrete main sheet for the locator example: (item code, lot) =
(`P1`,`L1`) at row 5 and (`P1`,`L2`) at row 9. -/
def locatorWS : Worksheet :=
  ⟨fun r c =>
    if r = 5 ∧ c = 2 then Value.str "P1"
    else if r = 5 ∧ c = 4 then Value.str "L1"
    else if r = 9 ∧ c = 2 then Value.str "P1"
    else if r = 9 ∧ c = 4 then Value.str "L2"
    else Value.none,
   fun _ _ => 0, 10, 4, []⟩

/-- Concrete sheet for the table-extension example: one table `F3:U418`
containing template row 418, one table `A5:D300` not containing it. -/
def tablesWS : Worksheet :=
  ⟨fun _ _ => Value.none, fun _ _ => 0, 418, 21,
   [⟨6, 3, 21, 418⟩, ⟨1, 5, 4, 300⟩]⟩

/-- Concrete LOG sheet for the append example: headers `시간`, `품번`,
`메모` in row 1, one data row, distinguishable styles. -/
def logWS : Worksheet :=
  ⟨fun r c =>
    if r = 1 ∧ c = 1 then Value.str "시간"
    else if r = 1 ∧ c = 2 then Value.str "품번"
    else if r = 1 ∧ c = 3 then Value.str "메모"
    else if r = 2 ∧ c = 1 then Value.dt 7
    else Value.none,
   fun r c => r * 10 + c, 2, 3, []⟩

/-- Concrete change record for the witnesses. -/
def recEx : ChangeRecord :=
  ⟨some 9, Value.none, Value.str "PN", Value.str "명", Value.str "LT", Value.num 3,
   Value.num 1, Value.num 2, Value.num 1, Value.str "4층", Value.str "5층"⟩

/-- Concrete two-sheet workbook for the orchestrator witness. -/
def wbEx : Workbook :=
  ⟨[("메인", blankWS), ("LOG", logWS)]⟩

/-- Concrete empty metadata index for the orchestrator witness. -/
def metaEx : MetaMap :=
  fun _ => Option.none

theorem getValue_setValue_same (ws : Worksheet) (r c : Nat) (v : Value) :
    getValue (setValue ws r c v) r c = v := by
  simp [getValue, setValue]

theorem getValue_setValue_of_ne (ws : Worksheet) (r c r' c' : Nat) (v : Value)
    (h : r' ≠ r ∨ c' ≠ c) :
    getValue (setValue ws r c v) r' c' = getValue ws r' c' := by
  simp only [getValue, setValue]
  rw [if_neg]
  rintro ⟨h1, h2⟩
  rcases h with h | h <;> exact h (by assumption)

theorem styles_setValue (ws : Worksheet) (r c : Nat) (v : Value) :
    (setValue ws r c v).styles = ws.styles := rfl

theorem cells_setStyle (ws : Worksheet) (r c sid : Nat) :
    (setStyle ws r c sid).cells = ws.cells := rfl

/-- C7: a drum number outside `[1, 20]` makes the drum update a complete
no-op on the sheet — the result is the unchanged worksheet together with
the range warning, with no partial writes. -/
theorem claim_C7_out_of_range_is_noop (ws : Worksheet) (row : Nat) (drum_no : Int)
    (new_qty new_loc : Value) (h : drum_no < 1 ∨ 20 < drum_no) :
    apply_drum_update_to_main ws row drum_no new_qty new_loc =
      Except.ok (ws, [drumWarn drum_no]) := by
  unfold apply_drum_update_to_main
  rw [if_pos h]

theorem claim_C7_witness :
    ((0 : Int) < 1 ∨ 20 < (0 : Int)) ∧
      apply_drum_update_to_main blankWS 3 0 (Value.num 5) (Value.str "4층") =
        Except.ok (blankWS, [drumWarn 0]) :=
  ⟨Or.inl (by decide),
   claim_C7_out_of_range_is_noop blankWS 3 0 (Value.num 5) (Value.str "4층")
     (Or.inl (by decide))⟩

/-- C5: the table extender rewrites the max row of exactly those table
ranges that contain the template row and end before the new row, to the
new row, leaving min row, min column and max column alone; every other
range, and every non-table part of the sheet, is untouched. -/
theorem claim_C5_extend_tables (ws : Worksheet) (template_row new_row : Nat) :
    (extend_tables_for_new_row ws template_row new_row).cells = ws.cells ∧
    (extend_tables_for_new_row ws template_row new_row).styles = ws.styles ∧
    (extend_tables_for_new_row ws template_row new_row).maxRow = ws.maxRow ∧
    (extend_tables_for_new_row ws template_row new_row).maxCol = ws.maxCol ∧
    (extend_tables_for_new_row ws template_row new_row).tables.length = ws.tables.length ∧
    ∀ i : Nat, (extend_tables_for_new_row ws template_row new_row).tables[i]? =
      (ws.tables[i]?).map (fun (t : Table) =>
        if t.minRow ≤ template_row ∧ template_row ≤ t.maxRow ∧ t.maxRow < new_row then
          { t with maxRow := new_row }
        else t) := by
  refine ⟨rfl, rfl, rfl, rfl, List.length_map _ _, fun i => ?_⟩
  unfold extend_tables_for_new_row
  simp only [List.getElem?_map]
  cases h : ws.tables[i]? with
  | none => rfl
  | some t =>
    simp only [Option.map_some']
    congr 1
    by_cases h1 : t.minRow ≤ template_row ∧ template_row ≤ t.maxRow
    · by_cases h2 : t.maxRow < new_row
      · rw [if_pos h1, if_pos h2, if_pos ⟨h1.1, h1.2, h2⟩]
      · rw [if_pos h1, if_neg h2, if_neg (fun hc => h2 hc.2.2)]
    · rw [if_neg h1, if_neg (fun hc => h1 ⟨hc.1, hc.2.1⟩)]

/-- C3 counterexample: the pattern does match inside a bracketed
structured reference — `[@AB418]` is rewritten to `[@AB419]`, so the
rewriter does alter bracketed tokens whose name ends in uppercase letters
followed by the source row. -/
theorem claim_C3_counterexample :
    adjust_formula_row (Value.str "=[@AB418]") 418 419 = Value.str "=[@AB419]" ∧
      adjust_formula_row (Value.str "=[@AB418]") 418 419 ≠ Value.str "=[@AB418]" := by
  exact ⟨by decide, by decide⟩

/-- C4 counterexample: on the exact spaced string of the claim the
rewriter returns its input unchanged (the leading space defeats the `=`
check), not the trimmed rewritten formula the claim states. -/
theorem claim_C4_counterexample :
    adjust_formula_row (Value.str " =($R418+[@X])-$T418 ") 418 419 ≠
      Value.str "=($R419+[@X])-$T419" := by
  decide

/-- C4 amended: on the space-free formula the rewriter yields
`=($R419+[@X])-$T419` with the structured reference `[@X]` untouched; the
spaced variant of the claim does not begin with `=` and passes through
unchanged. -/
theorem claim_C4_formula_rewrite_example :
    adjust_formula_row (Value.str "=($R418+[@X])-$T418") 418 419 =
        Value.str "=($R419+[@X])-$T419" ∧
      adjust_formula_row (Value.str " =($R418+[@X])-$T418 ") 418 419 =
        Value.str " =($R418+[@X])-$T418 " := by
  exact ⟨by decide, by decide⟩

theorem mem_rowRange {r : Nat} : ∀ {n s : Nat}, r ∈ rowRange s n ↔ s ≤ r ∧ r < s + n := by
  intro n
  induction n with
  | zero => intro s; simp [rowRange]
  | succ n ih =>
    intro s
    simp only [rowRange, List.mem_cons, ih]
    omega

theorem findFirst_spec (p : Nat → Bool) :
    ∀ n s, 1 ≤ s →
      (findFirst p (rowRange s n) = 0 → ∀ r, s ≤ r → r < s + n → p r = false) ∧
      (findFirst p (rowRange s n) ≠ 0 →
        s ≤ findFirst p (rowRange s n) ∧ findFirst p (rowRange s n) < s + n ∧
        p (findFirst p (rowRange s n)) = true ∧
        ∀ r, s ≤ r → r < findFirst p (rowRange s n) → p r = false) := by
  intro n
  induction n with
  | zero =>
    intro s hs
    constructor
    · intro _ r h1 h2
      exact absurd h1 (by omega)
    · intro h
      exact absurd rfl h
  | succ n ih =>
    intro s hs
    have hrec := ih (s + 1) (by omega)
    have hrow : rowRange s (n + 1) = s :: rowRange (s + 1) n := rfl
    rw [hrow]
    by_cases hp : p s = true
    · rw [show findFirst p (s :: rowRange (s + 1) n) = s from by simp [findFirst, hp]]
      constructor
      · intro h0
        exact absurd h0 (by omega)
      · intro _
        refine ⟨le_refl s, by omega, hp, ?_⟩
        intro r h1 h2
        exact absurd h1 (by omega)
    · have hp2 : p s = false := by
        revert hp
        cases p s <;> simp
      rw [show findFirst p (s :: rowRange (s + 1) n) = findFirst p (rowRange (s + 1) n) from by
        simp [findFirst, hp2]]
      constructor
      · intro h0 r h1 h2
        rcases Nat.eq_or_lt_of_le h1 with heq | hlt
        · rw [← heq]
          exact hp2
        · exact hrec.1 h0 r (by omega) (by omega)
      · intro hne
        obtain ⟨ha, hb, hc, hd⟩ := hrec.2 hne
        refine ⟨by omega, by omega, hc, ?_⟩
        intro r h1 h2
        rcases Nat.eq_or_lt_of_le h1 with heq | hlt
        · rw [← heq]
          exact hp2
        · exact hd r (by omega) h2

/-- C6: the row locator scans rows 3 through `max_row` in order, comparing
the normalized item-code column (B) and lot column (D) against the
normalized inputs, and returns the first row where both match, or the
sentinel `0` when none does. -/
theorem claim_C6_row_locator (ws : Worksheet) (part lot : String) :
    (find_main_row ws part lot = 0 →
      ∀ r, 3 ≤ r → r ≤ ws.maxRow → rowMatches ws r part lot = false) ∧
    (find_main_row ws part lot ≠ 0 →
      3 ≤ find_main_row ws part lot ∧ find_main_row ws part lot ≤ ws.maxRow ∧
      rowMatches ws (find_main_row ws part lot) part lot = true ∧
      ∀ r, 3 ≤ r → r < find_main_row ws part lot → rowMatches ws r part lot = false) := by
  have h := findFirst_spec (fun r => rowMatches ws r part lot) (ws.maxRow - 2) 3 (by omega)
  unfold find_main_row
  constructor
  · intro h0 r h3 hle
    exact h.1 h0 r h3 (by omega)
  · intro hne
    obtain ⟨hs, hlt, hp, hbef⟩ := h.2 hne
    exact ⟨hs, by omega, hp, hbef⟩

theorem claim_C6_witness :
    find_main_row locatorWS "P1" "L2" ≠ 0 ∧
      rowMatches locatorWS (find_main_row locatorWS "P1" "L2") "P1" "L2" = true ∧
      find_main_row locatorWS "P1" "L2" ≤ locatorWS.maxRow ∧
      find_main_row locatorWS "P1" "L3" = 0 :=
  ⟨by decide, ((claim_C6_row_locator locatorWS "P1" "L2").2 (by decide)).2.2.1,
   ((claim_C6_row_locator locatorWS "P1" "L2").2 (by decide)).2.1, by decide⟩

theorem le_foldl_max (l : List Nat) (a : Nat) : a ≤ l.foldl Nat.max a := by
  induction l generalizing a with
  | nil => exact le_refl a
  | cons b l ih => exact le_trans (Nat.le_max_left a b) (ih (Nat.max a b))

theorem mem_le_foldl_max (l : List Nat) (a x : Nat) (hx : x ∈ l) : x ≤ l.foldl Nat.max a := by
  induction l generalizing a with
  | nil => cases hx
  | cons b l ih =>
    rcases List.mem_cons.mp hx with rfl | h
    · exact le_trans (Nat.le_max_right a x) (le_foldl_max l _)
    · exact ih (Nat.max a b) h

theorem foldl_max_mem_or (l : List Nat) (a : Nat) :
    l.foldl Nat.max a = a ∨ l.foldl Nat.max a ∈ l := by
  induction l generalizing a with
  | nil => exact Or.inl rfl
  | cons b l ih =>
    rw [List.foldl_cons]
    rcases ih (Nat.max a b) with h | h
    · by_cases hab : a ≤ b
      · refine Or.inr ?_
        rw [List.mem_cons]
        exact Or.inl (by rw [h]; exact Nat.max_eq_right hab)
      · exact Or.inl (by rw [h]; exact Nat.max_eq_left (by omega))
    · exact Or.inr (List.mem_cons_of_mem b h)

theorem le_listMax (l : List Nat) (x : Nat) (hx : x ∈ l) : x ≤ listMax l := by
  cases l with
  | nil => cases hx
  | cons t ts =>
    rcases List.mem_cons.mp hx with rfl | h
    · exact le_foldl_max ts x
    · exact mem_le_foldl_max ts t x h

theorem listMax_mem (l : List Nat) (h : l ≠ []) : listMax l ∈ l := by
  cases l with
  | nil => exact absurd rfl h
  | cons t ts =>
    rcases foldl_max_mem_or ts t with h2 | h2
    · rw [listMax, h2]
      exact List.mem_cons_self t ts
    · exact List.mem_cons_of_mem t h2

/-- C2: the replay watermark is the maximum timestamp in column 1 of the
LOG sheet over rows 2 through the last row (the minimum representable
time, `0`, when none is found); only records with a strictly greater
timestamp survive the filter, the survivors are applied in ascending
timestamp order and are exactly a permutation of the filtered set; and an
empty survivor set makes the orchestrator return the unchanged workbook
with applied-count `0` and no error. -/
theorem claim_C2_watermark_replay (wb : Workbook) (recs : List ChangeRecord)
    (meta_map : MetaMap) (wsm wsl : Worksheet)
    (h1 : sheetLookup wb "메인" = some wsm) (h2 : sheetLookup wb "LOG" = some wsl) :
    (∀ t ∈ logTimes wsl, t ≤ lastTime wsl) ∧
    (logTimes wsl = [] → lastTime wsl = 0) ∧
    (logTimes wsl ≠ [] → lastTime wsl ∈ logTimes wsl) ∧
    (∀ rec ∈ newLogsFor wsl recs, ∃ t, rec.time = some t ∧ lastTime wsl < t) ∧
    List.Pairwise recLE (newLogsFor wsl recs) ∧
    (newLogsFor wsl recs).Perm (recs.filter (passFilter (lastTime wsl))) ∧
    (newLogsFor wsl recs = [] →
      process_bulk_log_streamlit wb recs meta_map = Except.ok (wb, 0)) := by
  refine ⟨fun t ht => le_listMax _ t ht, fun h => by rw [lastTime, h]; rfl,
    fun h => listMax_mem _ h, ?_, ?_, ?_, ?_⟩
  · intro rec hrec
    have hmem : rec ∈ recs.filter (passFilter (lastTime wsl)) := by
      simp only [newLogsFor, List.mem_insertionSort] at hrec
      exact hrec
    have hpass : passFilter (lastTime wsl) rec = true := (List.mem_filter.mp hmem).2
    unfold passFilter at hpass
    cases htime : rec.time with
    | none => rw [htime] at hpass; cases hpass
    | some t =>
      rw [htime] at hpass
      exact ⟨t, rfl, of_decide_eq_true hpass⟩
  · exact List.sorted_insertionSort recLE _
  · exact List.perm_insertionSort recLE _
  · intro hnil
    unfold process_bulk_log_streamlit
    rw [h1, h2]
    simp only [newLogsFor] at hnil
    simp only [newLogsFor, hnil, List.isEmpty_nil, if_true]

theorem claim_C2_witness :
    sheetLookup wbEx "메인" = some blankWS ∧ sheetLookup wbEx "LOG" = some logWS ∧
      newLogsFor logWS [] = [] ∧
      process_bulk_log_streamlit wbEx [] metaEx = Except.ok (wbEx, 0) :=
  ⟨rfl, rfl, rfl,
   (claim_C2_watermark_replay wbEx [] metaEx blankWS logWS rfl rfl).2.2.2.2.2.2 rfl⟩

theorem pyStr_pyOr_str (L : String) : pyStr (pyOr (Value.str L) (Value.str "")) = L := by
  by_cases h : L = ""
  · subst h
    rfl
  · have ht : pyTruthy (Value.str L) = true := by simp [pyTruthy, h]
    rw [pyOr, if_pos ht]
    rfl

theorem pyFloat_pyOr_num (q : ℚ) :
    pyFloat (pyOr (Value.num q) (Value.num 0)) = Except.ok (FloatVal.num q) := by
  by_cases h : q = 0
  · subst h
    rfl
  · have ht : pyTruthy (Value.num q) = true := by simp [pyTruthy, h]
    rw [pyOr, if_pos ht]
    rfl

theorem pyOr_falsy (v b : Value) (h : pyTruthy v = false) : pyOr v b = b := by
  rw [pyOr, if_neg]
  rw [h]
  exact Bool.false_ne_true

theorem drumColsDistinct :
    ∀ d : Nat, d < 21 → 1 ≤ d →
      column_index_from_string (qtyCols d) ≠ column_index_from_string (locCols d) ∧
      column_index_from_string (qtyCols d) ≠ column_index_from_string (stockCols d) ∧
      column_index_from_string (locCols d) ≠ column_index_from_string (stockCols d) := by
  decide

/-- C1: for an in-range drum slot, a numeric quantity and any location
string, the update succeeds without warning, writes the location cell
verbatim, and writes the slot's quantity and stock-flag cells by the
normalized location: exhausted/disposed give quantity 0 and flag 0,
outsourced gives the quantity and flag 0, and any other location gives the
quantity and flag 0 exactly when the quantity is 0, else 1. -/
theorem claim_C1_drum_slot_policy (ws : Worksheet) (row : Nat) (drum_no : Int)
    (q : ℚ) (L : String) (h1 : 1 ≤ drum_no) (h2 : drum_no ≤ 20) :
    ∃ w', apply_drum_update_to_main ws row drum_no (Value.num q) (Value.str L) =
        Except.ok (w', []) ∧
      getValue w' row (column_index_from_string (locCols drum_no.toNat)) = Value.str L ∧
      ((pyUpper (pyStrip L) = "소진" ∨ pyUpper (pyStrip L) = "폐기") →
        getValue w' row (column_index_from_string (qtyCols drum_no.toNat)) = Value.num 0 ∧
        getValue w' row (column_index_from_string (stockCols drum_no.toNat)) = Value.num 0) ∧
      (¬(pyUpper (pyStrip L) = "소진" ∨ pyUpper (pyStrip L) = "폐기") →
        pyUpper (pyStrip L) = "외주" →
        getValue w' row (column_index_from_string (qtyCols drum_no.toNat)) = Value.num q ∧
        getValue w' row (column_index_from_string (stockCols drum_no.toNat)) = Value.num 0) ∧
      (¬(pyUpper (pyStrip L) = "소진" ∨ pyUpper (pyStrip L) = "폐기") →
        ¬pyUpper (pyStrip L) = "외주" →
        getValue w' row (column_index_from_string (qtyCols drum_no.toNat)) = Value.num q ∧
        getValue w' row (column_index_from_string (stockCols drum_no.toNat)) =
          Value.num (if q = 0 then 0 else 1)) := by
  have hrange : ¬(drum_no < 1 ∨ 20 < drum_no) := by omega
  have hd1 : 1 ≤ drum_no.toNat := by omega
  have hd21 : drum_no.toNat < 21 := by omega
  obtain ⟨hql, hqs, hls⟩ := drumColsDistinct drum_no.toNat hd21 hd1
  unfold apply_drum_update_to_main
  rw [if_neg hrange, pyFloat_pyOr_num, pyStr_pyOr_str]
  dsimp only
  by_cases hb1 : pyUpper (pyStrip L) = "소진" ∨ pyUpper (pyStrip L) = "폐기"
  · rw [if_pos hb1]
    refine ⟨_, rfl, ?_, fun h => ⟨?_, ?_⟩, fun hn _ => absurd hb1 hn, fun hn _ => absurd hb1 hn⟩
    · rw [getValue_setValue_of_ne _ _ _ _ _ _ (Or.inr (Ne.symm hql)),
        getValue_setValue_of_ne _ _ _ _ _ _ (Or.inr hls),
        getValue_setValue_same]
    · exact getValue_setValue_same _ _ _ _
    · rw [getValue_setValue_of_ne _ _ _ _ _ _ (Or.inr (Ne.symm hqs)),
        getValue_setValue_same]
  · rw [if_neg hb1]
    by_cases hb2 : pyUpper (pyStrip L) = "외주"
    · rw [if_pos hb2]
      refine ⟨_, rfl, ?_, fun h => absurd h hb1, fun _ _ => ⟨?_, ?_⟩,
        fun _ hn => absurd hb2 hn⟩
      · rw [getValue_setValue_of_ne _ _ _ _ _ _ (Or.inr (Ne.symm hql)),
          getValue_setValue_of_ne _ _ _ _ _ _ (Or.inr hls),
          getValue_setValue_same]
      · exact getValue_setValue_same _ _ _ _
      · rw [getValue_setValue_of_ne _ _ _ _ _ _ (Or.inr (Ne.symm hqs)),
          getValue_setValue_same]
    · rw [if_neg hb2]
      refine ⟨_, rfl, ?_, fun h => absurd h hb1, fun _ h => absurd h hb2,
        fun _ _ => ⟨?_, ?_⟩⟩
      · rw [getValue_setValue_of_ne _ _ _ _ _ _ (Or.inr hls),
          getValue_setValue_of_ne _ _ _ _ _ _ (Or.inr (Ne.symm hql)),
          getValue_setValue_same]
      · rw [getValue_setValue_of_ne _ _ _ _ _ _ (Or.inr hqs),
          getValue_setValue_same]
        rfl
      · rw [getValue_setValue_same]
        simp only [floatIsZero]
        by_cases hq0 : q = 0
        · rw [if_pos (by simp [hq0]), if_pos hq0]
        · rw [if_neg (by simp [hq0]), if_neg hq0]

theorem claim_C1_witness :
    ∃ w', apply_drum_update_to_main blankWS 3 7 (Value.num 5) (Value.str "외주") =
        Except.ok (w', []) ∧
      getValue w' 3 (column_index_from_string (qtyCols 7)) = Value.num 5 ∧
      getValue w' 3 (column_index_from_string (stockCols 7)) = Value.num 0 ∧
      getValue w' 3 (column_index_from_string (locCols 7)) = Value.str "외주" := by
  obtain ⟨w', heq, hloc, _, hout, _⟩ :=
    claim_C1_drum_slot_policy blankWS 3 7 5 "외주" (by decide) (by decide)
  obtain ⟨hq, hs⟩ := hout (by decide) (by decide)
  exact ⟨w', heq, hq, hs, hloc⟩

/-- C8 counterexample: a non-numeric string quantity is not treated as 0 —
the update raises (`float("abc")` fails) instead of completing. -/
theorem claim_C8_counterexample :
    exceptIsOk (apply_drum_update_to_main blankWS 3 1 (Value.str "abc") (Value.str "4층")) =
      false := by
  rfl

/-- C8 amended: for an in-range drum slot, a quantity that is Python-falsy
(`None`, the empty string, or the number 0) is treated as 0: the update
completes without error and writes quantity 0 and stock-flag 0 in every
location branch.  A non-numeric string quantity instead raises. -/
theorem claim_C8_falsy_quantity_zero (ws : Worksheet) (row : Nat) (drum_no : Int)
    (new_qty new_loc : Value) (h1 : 1 ≤ drum_no) (h2 : drum_no ≤ 20)
    (hq : pyTruthy new_qty = false) :
    ∃ w', apply_drum_update_to_main ws row drum_no new_qty new_loc = Except.ok (w', []) ∧
      getValue w' row (column_index_from_string (qtyCols drum_no.toNat)) = Value.num 0 ∧
      getValue w' row (column_index_from_string (stockCols drum_no.toNat)) = Value.num 0 := by
  have hrange : ¬(drum_no < 1 ∨ 20 < drum_no) := by omega
  have hd1 : 1 ≤ drum_no.toNat := by omega
  have hd21 : drum_no.toNat < 21 := by omega
  obtain ⟨hql, hqs, hls⟩ := drumColsDistinct drum_no.toNat hd21 hd1
  unfold apply_drum_update_to_main
  rw [if_neg hrange, pyOr_falsy _ _ hq]
  dsimp only [pyFloat]
  by_cases hb1 : pyUpper (pyStrip (pyStr (pyOr new_loc (Value.str "")))) = "소진" ∨
      pyUpper (pyStrip (pyStr (pyOr new_loc (Value.str "")))) = "폐기"
  · rw [if_pos hb1]
    refine ⟨_, rfl, getValue_setValue_same _ _ _ _, ?_⟩
    rw [getValue_setValue_of_ne _ _ _ _ _ _ (Or.inr (Ne.symm hqs)), getValue_setValue_same]
  · rw [if_neg hb1]
    by_cases hb2 : pyUpper (pyStrip (pyStr (pyOr new_loc (Value.str "")))) = "외주"
    · rw [if_pos hb2]
      refine ⟨_, rfl, ?_, ?_⟩
      · rw [getValue_setValue_same]
        rfl
      · rw [getValue_setValue_of_ne _ _ _ _ _ _ (Or.inr (Ne.symm hqs)), getValue_setValue_same]
    · rw [if_neg hb2]
      refine ⟨_, rfl, ?_, ?_⟩
      · rw [getValue_setValue_of_ne _ _ _ _ _ _ (Or.inr hqs), getValue_setValue_same]
        rfl
      · rw [getValue_setValue_same,
          if_pos (show floatIsZero (FloatVal.num 0) = true by decide)]

theorem claim_C8_witness :
    pyTruthy Value.none = false ∧
      ∃ w', apply_drum_update_to_main blankWS 3 1 Value.none (Value.str "4층") =
          Except.ok (w', []) ∧
        getValue w' 3 (column_index_from_string (qtyCols 1)) = Value.num 0 ∧
        getValue w' 3 (column_index_from_string (stockCols 1)) = Value.num 0 :=
  ⟨rfl,
   claim_C8_falsy_quantity_zero blankWS 3 1 Value.none (Value.str "4층")
     (by decide) (by decide) rfl⟩

theorem styles_setStyle_same (ws : Worksheet) (r c sid : Nat) :
    (setStyle ws r c sid).styles r c = sid := by
  simp [setStyle]

theorem styles_setStyle_of_ne (ws : Worksheet) (r c sid r2 c2 : Nat) (h : r2 ≠ r ∨ c2 ≠ c) :
    (setStyle ws r c sid).styles r2 c2 = ws.styles r2 c2 := by
  simp only [setStyle]
  rw [if_neg]
  rintro ⟨ha, hb⟩
  rcases h with h | h <;> exact h (by assumption)

theorem cells_styleFold (l : List Nat) (ws : Worksheet) (src dst : Nat) :
    (l.foldl (fun w c => setStyle w dst c (w.styles src c)) ws).cells = ws.cells := by
  induction l generalizing ws with
  | nil => rfl
  | cons a l ih =>
    rw [List.foldl_cons, ih]
    rfl

theorem styles_styleFold_other (l : List Nat) (ws : Worksheet) (src dst r c : Nat)
    (h : r ≠ dst ∨ c ∉ l) :
    (l.foldl (fun w c2 => setStyle w dst c2 (w.styles src c2)) ws).styles r c =
      ws.styles r c := by
  induction l generalizing ws with
  | nil => rfl
  | cons a l ih =>
    rw [List.foldl_cons]
    rcases h with h | h
    · rw [ih _ (Or.inl h)]
      exact styles_setStyle_of_ne _ _ _ _ _ _ (Or.inl h)
    · have hca : c ≠ a := fun he => h (he ▸ List.mem_cons_self a l)
      have hcl : c ∉ l := fun hm => h (List.mem_cons_of_mem a hm)
      rw [ih _ (Or.inr hcl)]
      exact styles_setStyle_of_ne _ _ _ _ _ _ (Or.inr hca)

theorem styles_styleFold_mem (l : List Nat) (ws : Worksheet) (src dst c : Nat)
    (hsd : src ≠ dst) (hc : c ∈ l) :
    (l.foldl (fun w c2 => setStyle w dst c2 (w.styles src c2)) ws).styles dst c =
      ws.styles src c := by
  induction l generalizing ws with
  | nil => cases hc
  | cons a l ih =>
    rw [List.foldl_cons]
    by_cases hcl : c ∈ l
    · rw [ih _ hcl]
      exact styles_setStyle_of_ne _ _ _ _ _ _ (Or.inl hsd)
    · have hca : c = a := by
        rcases List.mem_cons.mp hc with h | h
        · exact h
        · exact absurd h hcl
      subst hca
      rw [styles_styleFold_other _ _ _ _ _ _ (Or.inr hcl)]
      exact styles_setStyle_same _ _ _ _

theorem writeFields_styles (hm : String → Option Nat) (r : Nat) (L : List (String × Value)) :
    ∀ ws : Worksheet, (writeFields hm r ws L).styles = ws.styles := by
  induction L with
  | nil => intro ws; rfl
  | cons p L ih =>
    intro ws
    rw [writeFields]
    cases hmp : hm p.1 with
    | none => exact ih ws
    | some c0 => exact (ih (setValue ws r c0 p.2)).trans rfl

theorem writeFields_value_other (hm : String → Option Nat) (r : Nat)
    (L : List (String × Value)) :
    ∀ (ws : Worksheet) (r2 c : Nat), (r2 ≠ r ∨ ∀ p ∈ L, hm p.1 ≠ some c) →
      getValue (writeFields hm r ws L) r2 c = getValue ws r2 c := by
  induction L with
  | nil => intro ws r2 c _; rfl
  | cons p L ih =>
    intro ws r2 c h
    rw [writeFields]
    have htail : r2 ≠ r ∨ ∀ p2 ∈ L, hm p2.1 ≠ some c := by
      rcases h with h | h
      · exact Or.inl h
      · exact Or.inr fun p2 hp2 => h p2 (List.mem_cons_of_mem p hp2)
    cases hmp : hm p.1 with
    | none => exact ih ws r2 c htail
    | some c0 =>
      rw [ih _ r2 c htail]
      refine getValue_setValue_of_ne _ _ _ _ _ _ ?_
      rcases h with h | h
      · exact Or.inl h
      · refine Or.inr fun hce => ?_
        exact h p (List.mem_cons_self p L) (by rw [hmp, hce])

theorem writeFields_value_hit (hm : String → Option Nat) (r : Nat)
    (L : List (String × Value)) :
    ∀ (ws : Worksheet) (h : String) (v : Value) (c : Nat), (h, v) ∈ L → hm h = some c →
      (L.map Prod.fst).Nodup → (∀ p ∈ L, p.1 ≠ h → hm p.1 ≠ some c) →
      getValue (writeFields hm r ws L) r c = v := by
  induction L with
  | nil =>
    intro ws h v c hmem
    cases hmem
  | cons p L ih =>
    intro ws h v c hmem hcol hnodup hinj
    rcases List.mem_cons.mp hmem with heq | hmem2
    · have hp1 : p.1 = h := by rw [← heq]
      have hp2 : p.2 = v := by rw [← heq]
      have hnotin : ∀ p2 ∈ L, hm p2.1 ≠ some c := by
        intro p2 hp2mem
        by_cases hh : p2.1 = h
        · intro _
          refine (List.nodup_cons.mp hnodup).1 ?_
          rw [hp1]
          exact hh ▸ List.mem_map_of_mem Prod.fst hp2mem
        · exact hinj p2 (List.mem_cons_of_mem p hp2mem) hh
      rw [writeFields]
      cases hmp : hm p.1 with
      | none =>
        rw [hp1, hcol] at hmp
        cases hmp
      | some c0 =>
        have hc0 : c0 = c := by
          rw [hp1, hcol] at hmp
          injection hmp with hinj2
          exact hinj2.symm
        rw [hc0]
        rw [writeFields_value_other hm r L _ r c (Or.inr hnotin), ← hp2]
        exact getValue_setValue_same _ _ _ _
    · have hmap : h ∈ L.map Prod.fst := by
        have := List.mem_map_of_mem Prod.fst hmem2
        exact this
      have hph : p.1 ≠ h := fun he => (List.nodup_cons.mp hnodup).1 (he ▸ hmap)
      have ihapp := fun w0 => ih w0 h v c hmem2 hcol (List.nodup_cons.mp hnodup).2
        (fun p2 hp2 hne => hinj p2 (List.mem_cons_of_mem p hp2) hne)
      rw [writeFields]
      cases hmp : hm p.1 with
      | none => exact ihapp ws
      | some c0 => exact ihapp (setValue ws r c0 p.2)

theorem headerFold_sound (ws : Worksheet) (name : String) :
    ∀ (l : List Nat) (acc : Option Nat) (c : Nat),
      l.foldl (fun acc2 c2 =>
        if ws.cells 1 c2 = Value.none then acc2
        else if pyStrip (pyStr (ws.cells 1 c2)) = name then some c2 else acc2) acc = some c →
      acc = some c ∨
        (c ∈ l ∧ ws.cells 1 c ≠ Value.none ∧ pyStrip (pyStr (ws.cells 1 c)) = name) := by
  intro l
  induction l with
  | nil =>
    intro acc c h
    exact Or.inl h
  | cons a l ih =>
    intro acc c h
    rw [List.foldl_cons] at h
    rcases ih _ c h with hacc | hmem
    · by_cases h1 : ws.cells 1 a = Value.none
      · rw [if_pos h1] at hacc
        exact Or.inl hacc
      · by_cases h2 : pyStrip (pyStr (ws.cells 1 a)) = name
        · rw [if_neg h1, if_pos h2] at hacc
          injection hacc with hac
          refine Or.inr ⟨?_, ?_, ?_⟩
          · rw [← hac]
            exact List.mem_cons_self a l
          · rw [← hac]
            exact h1
          · rw [← hac]
            exact h2
        · rw [if_neg h1, if_neg h2] at hacc
          exact Or.inl hacc
    · exact Or.inr ⟨List.mem_cons_of_mem a hmem.1, hmem.2⟩

theorem headerLookup_sound (ws : Worksheet) (name : String) (c : Nat)
    (h : headerLookup ws name = some c) :
    1 ≤ c ∧ c ≤ ws.maxCol ∧ ws.cells 1 c ≠ Value.none ∧
      pyStrip (pyStr (ws.cells 1 c)) = name := by
  rcases headerFold_sound ws name (rowRange 1 ws.maxCol) Option.none c h with hacc | hmem
  · cases hacc
  · have hb := mem_rowRange.mp hmem.1
    exact ⟨hb.1, by omega, hmem.2⟩

theorem headerLookup_inj (ws : Worksheet) (n1 n2 : String) (c : Nat)
    (h1 : headerLookup ws n1 = some c) (h2 : headerLookup ws n2 = some c) : n1 = n2 := by
  have s1 := (headerLookup_sound ws n1 c h1).2.2.2
  have s2 := (headerLookup_sound ws n2 c h2).2.2.2
  rw [← s1, ← s2]

/-- C9: the audit-log appender builds a header-name-to-column map from row
1 (every mapped name is the stripped header string of its column), appends
at (last row + 1) copying the prior last row's style for every column up
to the sheet's max column, writes each recognized field of the value map
into the column its header names, leaves every column named by no
recognized header untouched (blank stays blank), and the `품목코드` header
receives the same value as the `품번` field. -/
theorem claim_C9_append_log_row (ws : Worksheet) (rec : ChangeRecord) :
    (∀ name c, headerLookup ws name = some c →
      1 ≤ c ∧ c ≤ ws.maxCol ∧ ws.cells 1 c ≠ Value.none ∧
        pyStrip (pyStr (ws.cells 1 c)) = name) ∧
    (∀ c, 1 ≤ c → c ≤ ws.maxCol →
      (append_log_row ws rec).styles (max ws.maxRow 1 + 1) c =
        ws.styles (max ws.maxRow 1) c) ∧
    (∀ h v c, (h, v) ∈ valueMap rec → headerLookup ws h = some c →
      getValue (append_log_row ws rec) (max ws.maxRow 1 + 1) c = v) ∧
    (∀ c, (∀ p ∈ valueMap rec, headerLookup ws p.1 ≠ some c) →
      getValue (append_log_row ws rec) (max ws.maxRow 1 + 1) c =
        getValue ws (max ws.maxRow 1 + 1) c) ∧
    (∀ c, headerLookup ws "품목코드" = some c →
      getValue (append_log_row ws rec) (max ws.maxRow 1 + 1) c = rec.part) := by
  have hkeys : (valueMap rec).map Prod.fst =
      ["시간", "ID", "품목코드", "품번", "품명", "로트번호", "통번호",
       "변경 전 용량", "변경 후 용량", "변화량", "변경 전 위치", "변경 후 위치"] := rfl
  have hnodup : ((valueMap rec).map Prod.fst).Nodup := by
    rw [hkeys]
    decide
  refine ⟨fun name c h => headerLookup_sound ws name c h, ?_, ?_, ?_, ?_⟩
  · intro c hc1 hc2
    unfold append_log_row
    rw [writeFields_styles]
    unfold copyRowStyles
    refine styles_styleFold_mem _ _ _ _ _ (by omega) ?_
    exact mem_rowRange.mpr ⟨hc1, by omega⟩
  · intro h v c hmem hcol
    unfold append_log_row
    rw [writeFields_value_hit (headerLookup ws) _ (valueMap rec) _ h v c hmem hcol hnodup
      (fun p hp hne hc => hne (headerLookup_inj ws p.1 h c hc hcol))]
  · intro c hno
    unfold append_log_row
    rw [writeFields_value_other (headerLookup ws) _ (valueMap rec) _ _ c (Or.inr hno)]
    unfold getValue copyRowStyles
    rw [cells_styleFold]
  · intro c hcol
    unfold append_log_row
    rw [writeFields_value_hit (headerLookup ws) _ (valueMap rec) _ "품목코드" rec.part c
      (by
        rw [valueMap]
        exact List.mem_cons_of_mem _ (List.mem_cons_of_mem _ (List.mem_cons_self _ _)))
      hcol hnodup
      (fun p hp hne hc => hne (headerLookup_inj ws p.1 "품목코드" c hc hcol))]

theorem claim_C9_witness :
    headerLookup logWS "품번" = some 2 ∧
      getValue (append_log_row logWS recEx) 3 2 = Value.str "PN" ∧
      (append_log_row logWS recEx).styles 3 2 = 22 := by
  refine ⟨by decide, ?_, ?_⟩
  · exact (claim_C9_append_log_row logWS recEx).2.2.1 "품번" (Value.str "PN") 2
      (by decide) (by decide)
  · exact (claim_C9_append_log_row logWS recEx).2.1 2 (by decide) (by decide)

theorem isDigitChar_digitChar (m : Nat) : isDigitChar (digitChar m) = true := by
  unfold digitChar
  split <;> decide

theorem rowDigitsAux_digits :
    ∀ (fuel n : Nat), ∀ c ∈ rowDigitsAux fuel n, isDigitChar c = true := by
  intro fuel
  induction fuel with
  | zero =>
    intro n c hc
    cases hc
  | succ fuel ih =>
    intro n c hc
    rw [rowDigitsAux] at hc
    by_cases hn : n < 10
    · rw [if_pos hn] at hc
      rcases List.mem_singleton.mp hc with rfl
      exact isDigitChar_digitChar n
    · rw [if_neg hn] at hc
      rcases List.mem_append.mp hc with h | h
      · exact ih _ c h
      · rcases List.mem_singleton.mp h with rfl
        exact isDigitChar_digitChar (n % 10)

theorem rowDigits_digits (n : Nat) : ∀ c ∈ rowDigits n, isDigitChar c = true :=
  rowDigitsAux_digits (n + 1) n

theorem rowDigitsAux_nonempty (fuel n : Nat) : rowDigitsAux (fuel + 1) n ≠ [] := by
  rw [rowDigitsAux]
  by_cases hn : n < 10
  · rw [if_pos hn]
    exact List.cons_ne_nil _ _
  · rw [if_neg hn]
    intro h
    rcases List.append_eq_nil.mp h with ⟨_, h2⟩
    exact List.cons_ne_nil _ _ h2

theorem rowDigits_nonempty (n : Nat) : rowDigits n ≠ [] :=
  rowDigitsAux_nonempty n n

theorem isDigitChar_not_upper (c : Char) (h : isDigitChar c = true) : isUpperAZ c = false := by
  unfold isDigitChar at h
  unfold isUpperAZ
  rcases Bool.and_eq_true_iff.mp h with ⟨h1, h2⟩
  have hn2 : c.toNat ≤ 57 := by exact_mod_cast of_decide_eq_true h2
  simp only [Bool.and_eq_false_iff]
  left
  simp only [decide_eq_false_iff_not]
  omega

theorem isDigitChar_ne_dollar (c : Char) (h : isDigitChar c = true) : c ≠ '$' := by
  intro he
  subst he
  cases h

theorem isUpperAZ_ne_dollar (c : Char) (h : isUpperAZ c = true) : c ≠ '$' := by
  intro he
  subst he
  cases h

theorem startsWithList_append (p r : List Char) : startsWithList p (p ++ r) = true := by
  induction p with
  | nil => rfl
  | cons a p ih =>
    rw [List.cons_append, startsWithList]
    simp [ih]

theorem startsWithList_decomp :
    ∀ (p l : List Char), startsWithList p l = true → l = p ++ l.drop p.length := by
  intro p
  induction p with
  | nil =>
    intro l _
    simp
  | cons a p ih =>
    intro l h
    cases l with
    | nil => cases h
    | cons b l2 =>
      rw [startsWithList] at h
      rcases Bool.and_eq_true_iff.mp h with ⟨h1, h2⟩
      have hab : a = b := of_decide_eq_true h1
      rw [List.length_cons, List.drop_succ_cons, List.cons_append, ← hab]
      rw [← ih l2 h2]

theorem tryLen_eq_some (old s : List Char) (k : Nat) (t : List Char)
    (h : tryLen old s k = some t) :
    t = s.take k ∧ t.length = k ∧ t.all isUpperAZ = true ∧
      startsWithList old (s.drop k) = true ∧
      boundaryOK ((s.drop k).drop old.length) = true := by
  simp only [tryLen] at h
  split at h
  · next hcond =>
    injection h with ht
    rcases Bool.and_eq_true_iff.mp hcond with ⟨hc1, hc4⟩
    rcases Bool.and_eq_true_iff.mp hc1 with ⟨hc2, hc3⟩
    rcases Bool.and_eq_true_iff.mp hc2 with ⟨hc5, hc6⟩
    refine ⟨ht.symm, ?_, ?_, hc3, hc4⟩
    · rw [← ht]
      exact of_decide_eq_true hc5
    · rw [← ht]
      exact hc6
  · cases h

theorem tryLen_reconstruct (old s : List Char) (k : Nat) (t : List Char)
    (h : tryLen old s k = some t) :
    s = t ++ old ++ s.drop (t.length + old.length) := by
  obtain ⟨ht, hlen, _, hpref, _⟩ := tryLen_eq_some old s k t h
  have hdec := startsWithList_decomp old (s.drop k) hpref
  have hdd : (s.drop k).drop old.length = s.drop (k + old.length) := by
    rw [List.drop_drop]
  calc s = s.take k ++ s.drop k := (List.take_append_drop k s).symm
    _ = t ++ (old ++ (s.drop k).drop old.length) := by rw [← ht, ← hdec]
    _ = t ++ old ++ s.drop (t.length + old.length) := by
        rw [hdd, hlen, List.append_assoc]

theorem tryLetters_cases (old s t : List Char) (h : tryLetters old s = some t) :
    tryLen old s 3 = some t ∨ tryLen old s 2 = some t ∨ tryLen old s 1 = some t := by
  unfold tryLetters at h
  cases h3 : tryLen old s 3 with
  | some t3 =>
    rw [h3] at h
    dsimp only at h
    exact Or.inl h
  | none =>
    rw [h3] at h
    dsimp only at h
    cases h2 : tryLen old s 2 with
    | some t2 =>
      rw [h2] at h
      dsimp only at h
      exact Or.inr (Or.inl h)
    | none =>
      rw [h2] at h
      dsimp only at h
      exact Or.inr (Or.inr h)

theorem tryLetters_nonempty (old s t : List Char) (h : tryLetters old s = some t) :
    1 ≤ t.length := by
  rcases tryLetters_cases old s t h with h | h | h <;>
    rcases tryLen_eq_some old s _ t h with ⟨_, hlen, _⟩ <;> omega

theorem tryLetters_reconstruct (old s t : List Char) (h : tryLetters old s = some t) :
    s = t ++ old ++ s.drop (t.length + old.length) := by
  rcases tryLetters_cases old s t h with h | h | h <;>
    exact tryLen_reconstruct old s _ t h

theorem matchAt_reconstruct (old s g1 : List Char) (h : matchAt old s = some g1) :
    1 ≤ g1.length ∧ s = g1 ++ old ++ s.drop (g1.length + old.length) := by
  cases s with
  | nil => cases h
  | cons c rest =>
    rw [matchAt] at h
    by_cases hc : c = '$'
    · rw [if_pos hc] at h
      cases ht : tryLetters old rest with
      | none =>
        rw [ht] at h
        cases h
      | some t =>
        rw [ht] at h
        have hg : c :: t = g1 := by simpa using h
        have hrec := tryLetters_reconstruct old rest t ht
        constructor
        · rw [← hg, List.length_cons]
          omega
        · rw [← hg, List.length_cons, List.cons_append, List.cons_append]
          rw [show t.length + 1 + old.length = t.length + old.length + 1 from by omega]
          rw [List.drop_succ_cons, ← hrec]
    · rw [if_neg hc] at h
      exact ⟨tryLetters_nonempty old _ g1 h, tryLetters_reconstruct old _ g1 h⟩

theorem subAdjustFuel_congr (old new : List Char) :
    ∀ (f1 f2 : Nat) (s : List Char), s.length ≤ f1 → s.length ≤ f2 →
      subAdjustFuel old new f1 s = subAdjustFuel old new f2 s := by
  intro f1
  induction f1 with
  | zero =>
    intro f2 s h1 h2
    have hs : s = [] := List.eq_nil_of_length_eq_zero (by omega)
    subst hs
    cases f2 <;> rfl
  | succ f1 ih =>
    intro f2 s h1 h2
    cases s with
    | nil => cases f2 <;> rfl
    | cons c rest =>
      cases f2 with
      | zero =>
        rw [List.length_cons] at h2
        omega
      | succ f2 =>
        rw [List.length_cons] at h1 h2
        cases hm : matchAt old (c :: rest) with
        | none =>
          simp only [subAdjustFuel, hm]
          exact congrArg _ (ih f2 rest (by omega) (by omega))
        | some g1 =>
          obtain ⟨hg1, _⟩ := matchAt_reconstruct old (c :: rest) g1 hm
          simp only [subAdjustFuel, hm]
          have hdl : ((c :: rest).drop (g1.length + old.length)).length ≤ rest.length := by
            rw [List.length_drop, List.length_cons]
            omega
          exact congrArg _ (ih f2 ((c :: rest).drop (g1.length + old.length))
            (by omega) (by omega))

theorem subAdjust_cons_none (old new : List Char) (c : Char) (s : List Char)
    (h : matchAt old (c :: s) = Option.none) :
    subAdjust old new (c :: s) = c :: subAdjust old new s := by
  show subAdjustFuel old new (s.length + 1) (c :: s) = c :: subAdjustFuel old new s.length s
  simp only [subAdjustFuel, h]

theorem subAdjust_match (old new : List Char) (c : Char) (s : List Char) (g1 : List Char)
    (h : matchAt old (c :: s) = some g1) :
    subAdjust old new (c :: s) =
      g1 ++ new ++ subAdjust old new ((c :: s).drop (g1.length + old.length)) := by
  obtain ⟨hg1, _⟩ := matchAt_reconstruct old (c :: s) g1 h
  show subAdjustFuel old new (s.length + 1) (c :: s) = _
  simp only [subAdjustFuel, h]
  refine congrArg _ ?_
  refine subAdjustFuel_congr old new s.length _ _ ?_ (le_refl _)
  rw [List.length_drop, List.length_cons]
  omega

theorem subAdjust_match_ne (old new s g1 : List Char) (hne : s ≠ [])
    (h : matchAt old s = some g1) :
    subAdjust old new s = g1 ++ new ++ subAdjust old new (s.drop (g1.length + old.length)) := by
  cases s with
  | nil => exact absurd rfl hne
  | cons c rest => exact subAdjust_match old new c rest g1 h

theorem subAdjust_id (old s : List Char) : subAdjust old old s = s := by
  suffices hf : ∀ (f : Nat) (s2 : List Char), s2.length ≤ f → subAdjustFuel old old f s2 = s2 by
    exact hf s.length s (le_refl _)
  intro f
  induction f with
  | zero =>
    intro s2 _
    rfl
  | succ f ih =>
    intro s2 h
    cases s2 with
    | nil => rfl
    | cons c rest =>
      rw [List.length_cons] at h
      cases hm : matchAt old (c :: rest) with
      | none =>
        simp only [subAdjustFuel, hm]
        rw [ih rest (by omega)]
      | some g1 =>
        obtain ⟨hg1, hrec⟩ := matchAt_reconstruct old (c :: rest) g1 hm
        simp only [subAdjustFuel, hm]
        rw [ih _ (by rw [List.length_drop, List.length_cons]; omega)]
        exact hrec.symm

/-- C10: rewriting a formula row to itself is the identity — for every
input value and every row number, `adjust_formula_row` with equal source
and destination rows returns its input unchanged. -/
theorem claim_C10_rewrite_self_identity (v : Value) (r : Nat) :
    adjust_formula_row v r r = v := by
  cases v with
  | str s =>
    unfold adjust_formula_row
    dsimp only
    by_cases hc : s.toList.head? = some '='
    · rw [if_pos hc, subAdjust_id]
      rfl
    · rw [if_neg hc]
  | none => rfl
  | nan => rfl
  | num q => rfl
  | dt t => rfl

theorem tryLen_occurrence (old letters rest : List Char) (k : Nat)
    (hk : letters.length = k) (hup : letters.all isUpperAZ = true)
    (hb : boundaryOK rest = true) :
    tryLen old (letters ++ (old ++ rest)) k = some letters := by
  have ht : (letters ++ (old ++ rest)).take k = letters := by
    rw [← hk]
    exact List.take_left letters (old ++ rest)
  have hd : (letters ++ (old ++ rest)).drop k = old ++ rest := by
    rw [← hk]
    exact List.drop_left letters (old ++ rest)
  have hd2 : (old ++ rest).drop old.length = rest := List.drop_left old rest
  simp only [tryLen, ht, hd, hd2, hk, hup, hb, startsWithList_append]
  simp

theorem tryLen_fail (old letters rest : List Char) (k : Nat)
    (hlt : letters.length < k)
    (ho : ∃ o0 old2, old = o0 :: old2 ∧ isUpperAZ o0 = false) :
    tryLen old (letters ++ (old ++ rest)) k = Option.none := by
  obtain ⟨o0, old2, ho1, ho2⟩ := ho
  have hmem : o0 ∈ (letters ++ (old ++ rest)).take k := by
    rw [List.take_append_eq_append_take]
    refine List.mem_append.mpr (Or.inr ?_)
    rw [ho1, List.cons_append]
    cases hkl : k - letters.length with
    | zero => omega
    | succ m => exact List.mem_cons_self _ _
  simp only [tryLen]
  rw [if_neg]
  intro hcond
  rcases Bool.and_eq_true_iff.mp hcond with ⟨hc1, _⟩
  rcases Bool.and_eq_true_iff.mp hc1 with ⟨hc2, _⟩
  rcases Bool.and_eq_true_iff.mp hc2 with ⟨_, hall⟩
  have := List.all_eq_true.mp hall o0 hmem
  rw [ho2] at this
  cases this

theorem tryLetters_occurrence (old letters rest : List Char)
    (h1 : 1 ≤ letters.length) (h3 : letters.length ≤ 3)
    (hup : letters.all isUpperAZ = true) (hb : boundaryOK rest = true)
    (ho : ∃ o0 old2, old = o0 :: old2 ∧ isUpperAZ o0 = false) :
    tryLetters old (letters ++ (old ++ rest)) = some letters := by
  unfold tryLetters
  rcases (by omega : letters.length = 3 ∨ letters.length = 2 ∨ letters.length = 1)
    with hl | hl | hl
  · rw [tryLen_occurrence old letters rest 3 hl hup hb]
  · rw [tryLen_fail old letters rest 3 (by omega) ⟨_, _, ho.choose_spec.choose_spec.1,
      ho.choose_spec.choose_spec.2⟩]
    rw [tryLen_occurrence old letters rest 2 hl hup hb]
  · rw [tryLen_fail old letters rest 3 (by omega) ⟨_, _, ho.choose_spec.choose_spec.1,
      ho.choose_spec.choose_spec.2⟩]
    rw [tryLen_fail old letters rest 2 (by omega) ⟨_, _, ho.choose_spec.choose_spec.1,
      ho.choose_spec.choose_spec.2⟩]
    rw [tryLen_occurrence old letters rest 1 hl hup hb]

theorem matchAt_occurrence (old dollar letters rest : List Char)
    (hdol : dollar = [] ∨ dollar = ['$'])
    (h1 : 1 ≤ letters.length) (h3 : letters.length ≤ 3)
    (hup : letters.all isUpperAZ = true) (hb : boundaryOK rest = true)
    (ho : ∃ o0 old2, old = o0 :: old2 ∧ isUpperAZ o0 = false) :
    matchAt old (dollar ++ (letters ++ (old ++ rest))) = some (dollar ++ letters) := by
  rcases hdol with rfl | rfl
  · rw [List.nil_append, List.nil_append]
    cases hlet : letters with
    | nil =>
      rw [hlet] at h1
      cases h1
    | cons l0 ls =>
      have hl0 : isUpperAZ l0 = true := by
        rw [hlet] at hup
        exact (Bool.and_eq_true_iff.mp hup).1
      rw [← hlet]
      have hcons : letters ++ (old ++ rest) = l0 :: (ls ++ (old ++ rest)) := by
        rw [hlet, List.cons_append]
      rw [hcons, matchAt, if_neg (isUpperAZ_ne_dollar l0 hl0), ← hcons]
      exact tryLetters_occurrence old letters rest h1 h3 hup hb ho
  · rw [List.cons_append, List.nil_append, matchAt, if_pos rfl,
      tryLetters_occurrence old letters rest h1 h3 hup hb ho]
    rfl

theorem subAdjust_skip (old new : List Char) :
    ∀ (pre suf : List Char),
      (∀ i, i < pre.length → matchAt old ((pre ++ suf).drop i) = Option.none) →
      subAdjust old new (pre ++ suf) = pre ++ subAdjust old new suf := by
  intro pre
  induction pre with
  | nil =>
    intro suf _
    rw [List.nil_append, List.nil_append]
  | cons c pre ih =>
    intro suf h
    have h0 := h 0 (by rw [List.length_cons]; omega)
    rw [List.drop_zero, List.cons_append] at h0
    rw [List.cons_append, subAdjust_cons_none old new c (pre ++ suf) h0]
    rw [ih suf ?_, List.cons_append]
    intro i hi
    have := h (i + 1) (by rw [List.length_cons]; omega)
    rw [List.cons_append, List.drop_succ_cons] at this
    exact this

/-- C3 amended: for a formula beginning with `=`, the rewriter replaces
each leftmost occurrence of 1–3 uppercase column letters (optionally
preceded by `$`) immediately followed by the source row digits at a word
boundary with the same capture followed by the destination row, and
continues after it — wherever that occurrence sits, including inside
bracketed structured references; only bracketed tokens in which the
pattern does not occur are left unaltered. -/
theorem claim_C3_rewrites_each_occurrence (oldRow newRow : Nat)
    (pre dollar letters rest : List Char)
    (hdol : dollar = [] ∨ dollar = ['$'])
    (hl1 : 1 ≤ letters.length) (hl3 : letters.length ≤ 3)
    (hup : letters.all isUpperAZ = true)
    (hb : boundaryOK rest = true)
    (hpre : pre.head? = some '=')
    (hnomatch : ∀ i, i < pre.length →
      matchAt (rowDigits oldRow)
        ((pre ++ dollar ++ letters ++ rowDigits oldRow ++ rest).drop i) = Option.none) :
    adjust_formula_row
        (Value.str (String.mk (pre ++ dollar ++ letters ++ rowDigits oldRow ++ rest)))
        oldRow newRow =
      Value.str (String.mk (pre ++ dollar ++ letters ++ rowDigits newRow ++
        subAdjust (rowDigits oldRow) (rowDigits newRow) rest)) := by
  have ho : ∃ o0 old2, rowDigits oldRow = o0 :: old2 ∧ isUpperAZ o0 = false := by
    cases hD : rowDigits oldRow with
    | nil => exact absurd hD (rowDigits_nonempty oldRow)
    | cons o0 old2 =>
      refine ⟨o0, old2, rfl, isDigitChar_not_upper o0 (rowDigits_digits oldRow o0 ?_)⟩
      rw [hD]
      exact List.mem_cons_self _ _
  have hhead : (pre ++ dollar ++ letters ++ rowDigits oldRow ++ rest).head? = some '=' := by
    cases pre with
    | nil => cases hpre
    | cons p0 pre2 =>
      simp only [List.cons_append, List.head?_cons]
      simpa using hpre
  unfold adjust_formula_row
  dsimp only [String.toList]
  rw [if_pos hhead]
  refine congrArg Value.str (congrArg String.mk ?_)
  have hassoc : pre ++ dollar ++ letters ++ rowDigits oldRow ++ rest =
      pre ++ (dollar ++ (letters ++ (rowDigits oldRow ++ rest))) := by
    simp [List.append_assoc]
  rw [hassoc]
  rw [subAdjust_skip (rowDigits oldRow) (rowDigits newRow) pre
    (dollar ++ (letters ++ (rowDigits oldRow ++ rest)))
    (fun i hi => by
      have := hnomatch i hi
      rw [hassoc] at this
      exact this)]
  have hmo := matchAt_occurrence (rowDigits oldRow) dollar letters rest hdol hl1 hl3 hup hb ho
  have hsufne : dollar ++ (letters ++ (rowDigits oldRow ++ rest)) ≠ [] := by
    intro hnil
    have hlen := congrArg List.length hnil
    rw [List.length_append, List.length_append] at hlen
    simp only [List.length_nil] at hlen
    omega
  rw [subAdjust_match_ne (rowDigits oldRow) (rowDigits newRow) _ (dollar ++ letters)
    hsufne hmo]
  have hdrop : (dollar ++ (letters ++ (rowDigits oldRow ++ rest))).drop
      ((dollar ++ letters).length + (rowDigits oldRow).length) = rest := by
    have hre : dollar ++ (letters ++ (rowDigits oldRow ++ rest)) =
        (dollar ++ letters ++ rowDigits oldRow) ++ rest := by
      simp [List.append_assoc]
    rw [hre]
    have hlen : (dollar ++ letters ++ rowDigits oldRow).length =
        (dollar ++ letters).length + (rowDigits oldRow).length :=
      List.length_append (dollar ++ letters) (rowDigits oldRow)
    rw [← hlen]
    exact List.drop_left _ _
  rw [hdrop]
  simp [List.append_assoc]

theorem claim_C3_witness :
    adjust_formula_row
        (Value.str (String.mk ("=(".toList ++ "$".toList ++ "R".toList ++ rowDigits 418 ++
          "+[@X])-$T418".toList))) 418 419 =
      Value.str (String.mk ("=(".toList ++ "$".toList ++ "R".toList ++ rowDigits 419 ++
        subAdjust (rowDigits 418) (rowDigits 419) "+[@X])-$T418".toList)) :=
  claim_C3_rewrites_each_occurrence 418 419 "=(".toList "$".toList "R".toList
    "+[@X])-$T418".toList (Or.inr rfl) (by decide) (by decide) (by decide) (by decide)
    (by decide) (by decide)

end BulkUpdate
